import Mathlib

/-
Verification of `explode_bulkprint.py`, a one-shot batch script that walks a
bookmarked PDF export, classifies each top-level bookmark title, writes one
CSV row per candidate, and extracts one page-range sub-document per resume.

The embedding below is a direct shallow translation of the script:

* Bookmark titles and page texts are `List Char` (Python `str`).
* `re.match(r'.* Candidate Details', t)` is `matchCandidateDetails`:
  an (unanchored-at-the-end) prefix match, i.e. `t` decomposes as
  `a ++ " Candidate Details" ++ b` with no newline in `a` (`.` does not
  match newlines in Python).
* `re.match(r'.*\.pdf$', t)` is `matchResumeOk`: after discounting one
  trailing newline (Python `$` semantics) the title ends in `".pdf"` with no
  newline before the suffix.
* `re.match(r'.*\.pdf \(.*\)$', t)` is `matchResumeError`.
* The mutable loop state (`candidate_id`, `resume_count`, `resume_errors`,
  CSV rows written, resume files written) is the structure `St`; the script
  body is `runFrom` / `run`.  Uncaught Python exceptions (IndexError from
  list indexing, ValueError from `list.index`) are modelled by the
  `Option PyError` component: once an exception fires, the run stops with
  the state reached so far (matching the side effects already performed).
-/

/-- True when the character list has no newline: the region a Python `.`
can scan over. -/
def noNL (s : List Char) : Bool := !(s.contains '\n')

/-- Python `$` matches at end of string or just before one trailing
newline; stripping that newline reduces `$` to end-of-list. -/
def stripTrailNL (t : List Char) : List Char :=
  if t.getLast? = some '\n' then t.dropLast else t

/-- `re.match(r'.*' ++ pat, t)` for a literal `pat`: some split
`t = a ++ pat ++ b` exists with `a` newline-free (trailing `b` is allowed
because `re.match` only anchors at the start). -/
def matchDotStar (pat : List Char) : List Char → Bool
  | [] => pat.isEmpty
  | c :: rest => pat.isPrefixOf (c :: rest) || (c != '\n' && matchDotStar pat rest)

/-- `re.match(r'.*' ++ pat ++ r'.*' ++ close)`-style helper: some split
`t = a ++ pat ++ b` with both `a` and `b` newline-free. -/
def splitNoNLBoth (pat : List Char) : List Char → Bool
  | [] => pat.isEmpty
  | c :: rest =>
      (pat.isPrefixOf (c :: rest) && noNL ((c :: rest).drop pat.length))
        || (c != '\n' && splitNoNLBoth pat rest)

/-- `t = a ++ pat` with `a` newline-free. -/
def endsWithNoNL (pat t : List Char) : Bool :=
  pat.isSuffixOf t && noNL (t.take (t.length - pat.length))

def candLit : List Char := " Candidate Details".toList

def pdfLit : List Char := ".pdf".toList

def pdfErrOpenLit : List Char := ".pdf (".toList

/-- Line 82: `re.match(r'.* Candidate Details', dest.title)`. -/
def matchCandidateDetails (title : List Char) : Bool := matchDotStar candLit title

/-- Line 111: `re.match(r'.*\.pdf$', dest.title)`. -/
def matchResumeOk (title : List Char) : Bool :=
  endsWithNoNL pdfLit (stripTrailNL title)

/-- Line 134: `re.match(r'.*\.pdf \(.*\)$', dest.title)`. -/
def matchResumeError (title : List Char) : Bool :=
  let u := stripTrailNL title
  if u.getLast? = some ')' then splitNoNLBoth pdfErrOpenLit u.dropLast else false

/-- Python `text.split('\n')`: always at least one piece, empty pieces
kept. -/
def splitNL : List Char → List (List Char)
  | [] => [[]]
  | c :: rest =>
      if c = '\n' then [] :: splitNL rest
      else
        match splitNL rest with
        | [] => [[c]]
        | h :: t => (c :: h) :: t

/-- Python `s.split()` (no separator): split on whitespace runs, dropping
empty pieces. -/
def pySplitWS : List Char → List (List Char)
  | [] => []
  | c :: rest =>
      if c.isWhitespace then pySplitWS rest
      else
        match rest with
        | [] => [[c]]
        | d :: _ =>
          if d.isWhitespace then [c] :: pySplitWS rest
          else
            match pySplitWS rest with
            | [] => [[c]]
            | h :: t => (c :: h) :: t

/-- Python `s.strip()`. -/
def stripWS (s : List Char) : List Char :=
  ((s.dropWhile Char.isWhitespace).reverse.dropWhile Char.isWhitespace).reverse

/-- The uncaught Python exceptions the script can die from. -/
inductive PyError where
  | indexError
  | valueError
deriving DecidableEq

deriving instance DecidableEq for Except

/-- One CSV row (line 102): `{'id', 'title', 'first_name', 'last_name',
'email'}`. -/
structure Row where
  id : Nat
  title : List Char
  first_name : List Char
  last_name : List Char
  email : List Char
deriving DecidableEq

/-- One element of `doc.outlines`: either a `Destination` (title plus the
page `getDestinationPageNumber` resolves it to) or a nested list of
sub-bookmarks, which the script never inspects. -/
inductive Entry where
  | dest (title : List Char) (page : Nat)
  | sub
deriving DecidableEq

/-- The source document: outline list, page count, and per-page extracted
text (`doc.getPage(n).extractText()`). -/
structure Doc where
  outlines : List Entry
  numPages : Nat
  pageText : Nat → List Char

/-- Line 34: `TITLES = ['Mr', 'Mrs', 'Ms', 'Miss', 'Dr', 'Professor']`. -/
def TITLES : List (List Char) :=
  ["Mr".toList, "Mrs".toList, "Ms".toList, "Miss".toList, "Dr".toList,
   "Professor".toList]

def emailLabelLine : List Char := "Email Address:".toList

/-- Line 87: `c_fullname = details[0].strip().split()`. -/
def nameTokens (text : List Char) : List (List Char) :=
  pySplitWS (stripWS ((splitNL text).headD []))

/-- Lines 86-99: parse one candidate-details page into a `Row`.
Failure modes are exactly the uncaught Python exceptions:
`c_fullname[0]` on an empty token list (IndexError), `c_fullname[1]` when a
title is present but no second token exists (IndexError),
`details.index('Email Address:')` when the label line is absent
(ValueError), and `details[idx+1]` when the label is the last line
(IndexError). -/
def extractCandidate (cid : Nat) (text : List Char) : Except PyError Row :=
  let details := splitNL text
  match nameTokens text with
  | [] => .error .indexError
  | t0 :: restToks =>
    let titleFirst : Except PyError (List Char × List Char) :=
      if TITLES.contains t0 then
        match restToks with
        | [] => .error .indexError
        | f :: _ => .ok (t0, f)
      else .ok ([], t0)
    match titleFirst with
    | .error e => .error e
    | .ok (c_title, c_firstname) =>
      let c_lastname := (t0 :: restToks).getLast (List.cons_ne_nil t0 restToks)
      match List.findIdx? (fun l => l == emailLabelLine) details with
      | none => .error .valueError
      | some idx =>
        match details[idx + 1]? with
        | none => .error .indexError
        | some em =>
          .ok ⟨cid, c_title, c_firstname, c_lastname, stripWS em⟩

/-- Python `range(a, b)` over `Nat`: `[a, a+1, ..., b-1]`, empty when
`b ≤ a`. -/
def pyRange (a b : Nat) : List Nat := List.range' a (b - a)

/-- Lines 116-121: `k = i; while True: k += 1; next_dest = doc.outlines[k];
if not isinstance(next_dest, list): break` — the first non-list entry
strictly after the current index; running past the end of the outline list
raises IndexError. -/
def scanNext : List Entry → Except PyError (List Char × Nat)
  | [] => .error .indexError
  | .sub :: rest => scanNext rest
  | .dest t p :: _ => .ok (t, p)

/-- The script's mutable state: the id counter (line 62), the two stats
counters (lines 58-59), the CSV rows written so far, and the resume files
written so far as `(candidate_id, page indices)` in emission order. -/
structure St where
  candidate_id : Nat
  resume_count : Nat
  resume_errors : Nat
  rows : List Row
  resumes : List (Nat × List Nat)
deriving DecidableEq

def st0 : St := ⟨0, 0, 0, [], []⟩

/-- Lines 82-106: the candidate-details branch.  `candidate_id` is
incremented before extraction, so a parse failure still leaves the counter
bumped. -/
def detailsStep (d : Doc) (s : St) (title : List Char) (page_num : Nat) :
    St × Option PyError :=
  if matchCandidateDetails title then
    let cid := s.candidate_id + 1
    match extractCandidate cid (d.pageText page_num) with
    | .error e => ({ s with candidate_id := cid }, some e)
    | .ok row => ({ s with candidate_id := cid, rows := s.rows ++ [row] }, none)
  else (s, none)

/-- Lines 111-136: the resume branch.  `resume_count` is incremented before
the forward scan, so a scan failure still leaves the counter bumped; a
successful scan writes `{candidate_id}.pdf` holding pages
`range(page_num, next_dest_pagenum)`. -/
def resumeStep (s : St) (title : List Char) (page_num : Nat)
    (rest : List Entry) : St × Option PyError :=
  if matchResumeOk title then
    let s2 : St := { s with resume_count := s.resume_count + 1 }
    match scanNext rest with
    | .error e => (s2, some e)
    | .ok (_, next_dest_pagenum) =>
      ({ s2 with resumes :=
          s2.resumes ++ [(s2.candidate_id, pyRange page_num next_dest_pagenum)] },
       none)
  else if matchResumeError title then
    ({ s with resume_errors := s.resume_errors + 1 }, none)
  else (s, none)

/-- One loop iteration for a top-level destination: the details `if`
(line 82) runs first, and only if it did not raise does the resume `if`
(line 111) run on the updated state. -/
def step (d : Doc) (s : St) (title : List Char) (page_num : Nat)
    (rest : List Entry) : St × Option PyError :=
  match detailsStep d s title page_num with
  | (s1, some e) => (s1, some e)
  | (s1, none) => resumeStep s1 title page_num rest

/-- Lines 72-136: the loop over `doc.outlines`, skipping nested lists;
an uncaught exception aborts the remainder of the run. -/
def runFrom (d : Doc) (s : St) : List Entry → St × Option PyError
  | [] => (s, none)
  | .sub :: rest => runFrom d s rest
  | .dest title page :: rest =>
    match step d s title page rest with
    | (s1, none) => runFrom d s1 rest
    | (s1, some e) => (s1, some e)

/-- The whole run over one input document, from the initial counters. -/
def run (d : Doc) : St × Option PyError := runFrom d st0 d.outlines

/-- Pages of the top-level destinations, in outline order. -/
def destPages : List Entry → List Nat
  | [] => []
  | .sub :: rest => destPages rest
  | .dest _ p :: rest => p :: destPages rest

/-- Number of outline entries whose title fires the candidate-details
branch. -/
def countDetails : List Entry → Nat
  | [] => 0
  | .sub :: rest => countDetails rest
  | .dest t _ :: rest => (if matchCandidateDetails t then 1 else 0) + countDetails rest

/-- A trivial document, used to instantiate per-step theorems whose
conclusion does not consult the document. -/
def exDocTriv : Doc := ⟨[], 0, fun _ => []⟩

/-- A document whose only outline entry is a success-resume marker: the
forward scan for the next destination has nothing to find. -/
def exDocC1 : Doc := ⟨[Entry.dest "resume.pdf".toList 0], 5, fun _ => []⟩

/-- A document whose first candidate page is blank, with a second
candidate-details marker after it. -/
def exDocC4 : Doc :=
  ⟨[Entry.dest "1. Candidate Details".toList 0,
    Entry.dest "2. Candidate Details".toList 1], 2,
   fun n => if n = 0 then [] else "Jane Doe\nEmail Address:\njane@example.com".toList⟩

/-- A document with a parseable first candidate page followed by a second
candidate-details marker whose page is blank: the run parses one row, then
dies on the second marker. -/
def exDocC3bad : Doc :=
  ⟨[Entry.dest "1. Candidate Details".toList 0,
    Entry.dest "2. Candidate Details".toList 1], 2,
   fun n => if n = 0 then "Jane Doe\nEmail Address:\njane@example.com".toList
            else []⟩

/-- A document with two parseable candidates and one resume, whose run
completes without error. -/
def exDocC3 : Doc :=
  ⟨[Entry.dest "1. Candidate Details".toList 0,
    Entry.dest "resume.pdf".toList 1,
    Entry.sub,
    Entry.dest "2. Candidate Details".toList 3], 5,
   fun n => if n = 0 then "Mr John Q Public\nEmail Address:\njohn@example.com".toList
            else "Jane Doe\nEmail Address:\njane@example.com".toList⟩

/-- A document whose outline target pages are not monotone: the first
resume's segment runs past the page where the second resume starts. -/
def exDocC9 : Doc :=
  ⟨[Entry.dest "alpha.pdf".toList 0,
    Entry.dest "Section One".toList 10,
    Entry.dest "beta.pdf".toList 5,
    Entry.dest "Section Two".toList 12], 20, fun _ => []⟩

/-- A document whose first entry is a resume marker appearing before any
candidate-details marker. -/
def exDocC10 : Doc :=
  ⟨[Entry.dest "resume.pdf".toList 0,
    Entry.dest "1. Candidate Details".toList 2], 6,
   fun _ => "Jane Doe\nEmail Address:\njane@example.com".toList⟩

/-! ### Classifier lemmas -/

lemma noNL_iff {s : List Char} : noNL s = true ↔ '\n' ∉ s := by
  simp [noNL, List.contains]

lemma noNL_cons {c : Char} {a : List Char} :
    noNL (c :: a) = true ↔ (c ≠ '\n' ∧ noNL a = true) := by
  simp only [noNL_iff, List.mem_cons, not_or]
  constructor
  · rintro ⟨h1, h2⟩; exact ⟨fun h => h1 h.symm, h2⟩
  · rintro ⟨h1, h2⟩; exact ⟨fun h => h1 h.symm, h2⟩

/-- Semantics of the translated `re.match(r'.*' ++ pat, ·)`: it fires
exactly when the string contains `pat` preceded only by non-newline
characters — trailing text is allowed. -/
lemma matchDotStar_iff (pat : List Char) (t : List Char) :
    matchDotStar pat t = true ↔ ∃ a b, t = a ++ pat ++ b ∧ noNL a = true := by
  induction t with
  | nil =>
    constructor
    · intro h
      have hp : pat = [] := by simpa [matchDotStar, List.isEmpty_iff] using h
      exact ⟨[], [], by simp [hp], rfl⟩
    · rintro ⟨a, b, hab, -⟩
      have h' : a = [] ∧ pat = [] ∧ b = [] := by
        have := hab.symm
        simpa [List.append_eq_nil] using this
      simp [matchDotStar, List.isEmpty_iff, h'.2.1]
  | cons c rest ih =>
    simp only [matchDotStar, Bool.or_eq_true, Bool.and_eq_true, bne_iff_ne, ne_eq]
    constructor
    · rintro (hpre | ⟨hc, hrec⟩)
      · rcases List.isPrefixOf_iff_prefix.mp hpre with ⟨b, hb⟩
        exact ⟨[], b, by simp [← hb], rfl⟩
      · rcases ih.mp hrec with ⟨a, b, hab, ha⟩
        exact ⟨c :: a, b, by simp [hab], noNL_cons.mpr ⟨hc, ha⟩⟩
    · rintro ⟨a, b, hab, ha⟩
      cases a with
      | nil =>
        left
        exact List.isPrefixOf_iff_prefix.mpr ⟨b, by simpa using hab.symm⟩
      | cons c' a' =>
        right
        have hc : c = c' ∧ rest = a' ++ pat ++ b := by simpa using hab
        rcases noNL_cons.mp (hc.1 ▸ ha) with ⟨hne, ha'⟩
        exact ⟨hc.1 ▸ hne, ih.mpr ⟨a', b, hc.2, ha'⟩⟩

/-- A title accepted by the success-resume pattern ends (after discounting
one trailing newline) in the character `f` of `".pdf"`. -/
lemma matchResumeOk_getLast {t : List Char} (h : matchResumeOk t = true) :
    (stripTrailNL t).getLast? = some 'f' := by
  have h1 : pdfLit.isSuffixOf (stripTrailNL t) = true := by
    simp only [matchResumeOk, endsWithNoNL, Bool.and_eq_true] at h
    exact h.1
  rcases List.isSuffixOf_iff_suffix.mp h1 with ⟨a, ha⟩
  rw [← ha, List.getLast?_append]
  rfl

/-! ### Claims C2 and C8: the classifier -/

/-- Claim C2, corrected.  The two resume patterns are mutually exclusive —
a resume-error title never also fires the success pattern (and the `elif`
at line 134 additionally guarantees at most one resume branch runs) — but
the claim's "exactly one of the four categories" is false: the
candidate-details check at line 82 is an independent `if`, so a single
title can fire both the CandidateDetails and the ResumeOk branch
(see the counterexample). -/
theorem C2_resume_categories_exclusive (t : List Char) :
    (matchResumeOk t && matchResumeError t) = false := by
  cases hok : matchResumeOk t with
  | false => rfl
  | true =>
    have hf := matchResumeOk_getLast hok
    simp [matchResumeError, hf]

/-- Claim C2, counterexample: this title fires both the candidate-details
branch and the success-resume branch, so it is counted in two categories
for the same marker. -/
theorem C2_counterexample :
    matchCandidateDetails "Smith Candidate Details.pdf".toList = true ∧
    matchResumeOk "Smith Candidate Details.pdf".toList = true :=
  ⟨by decide, by decide⟩

/-- Claim C8, corrected.  The pattern `.* Candidate Details` is matched by
`re.match`, which anchors only at the start of the title: a title is
classified as CandidateDetails iff it CONTAINS `" Candidate Details"`
(preceded only by non-newline characters), not iff it ends with it —
trailing text after the match is allowed. -/
theorem C8_candidate_details_containment (t : List Char) :
    matchCandidateDetails t = true ↔
      ∃ a b, t = a ++ candLit ++ b ∧ noNL a = true :=
  matchDotStar_iff candLit t

/-- Claim C8, counterexample: a title with trailing text after
`" Candidate Details"` (so the suffix test fails) is nevertheless
classified as CandidateDetails. -/
theorem C8_counterexample :
    matchCandidateDetails "1. Candidate Details (copy)".toList = true ∧
    candLit.isSuffixOf "1. Candidate Details (copy)".toList = false :=
  ⟨by decide, by decide⟩

/-! ### Step analysis -/

lemma detailsStep_neg {d : Doc} {s : St} {title : List Char} {page : Nat}
    (h : matchCandidateDetails title = false) :
    detailsStep d s title page = (s, none) := by
  simp [detailsStep, h]

lemma detailsStep_err {d : Doc} {s : St} {title : List Char} {page : Nat}
    {e : PyError} (h : matchCandidateDetails title = true)
    (hex : extractCandidate (s.candidate_id + 1) (d.pageText page) = .error e) :
    detailsStep d s title page = ({ s with candidate_id := s.candidate_id + 1 }, some e) := by
  simp [detailsStep, h, hex]

lemma detailsStep_ok {d : Doc} {s : St} {title : List Char} {page : Nat}
    {row : Row} (h : matchCandidateDetails title = true)
    (hex : extractCandidate (s.candidate_id + 1) (d.pageText page) = .ok row) :
    detailsStep d s title page =
      ({ s with candidate_id := s.candidate_id + 1, rows := s.rows ++ [row] }, none) := by
  simp [detailsStep, h, hex]

lemma resumeStep_scan_err {s : St} {title : List Char} {page : Nat}
    {rest : List Entry} {e : PyError} (h : matchResumeOk title = true)
    (hs : scanNext rest = .error e) :
    resumeStep s title page rest = ({ s with resume_count := s.resume_count + 1 }, some e) := by
  simp [resumeStep, h, hs]

lemma resumeStep_ok {s : St} {title : List Char} {page : Nat}
    {rest : List Entry} {t2 : List Char} {q : Nat} (h : matchResumeOk title = true)
    (hs : scanNext rest = .ok (t2, q)) :
    resumeStep s title page rest =
      ({ s with
          resume_count := s.resume_count + 1,
          resumes := s.resumes ++ [(s.candidate_id, pyRange page q)] }, none) := by
  simp [resumeStep, h, hs]

lemma resumeStep_err_label {s : St} {title : List Char} {page : Nat}
    {rest : List Entry} (h : matchResumeOk title = false)
    (h2 : matchResumeError title = true) :
    resumeStep s title page rest = ({ s with resume_errors := s.resume_errors + 1 }, none) := by
  simp [resumeStep, h, h2]

lemma resumeStep_none {s : St} {title : List Char} {page : Nat}
    {rest : List Entry} (h : matchResumeOk title = false)
    (h2 : matchResumeError title = false) :
    resumeStep s title page rest = (s, none) := by
  simp [resumeStep, h, h2]

lemma step_of_detailsStep_err {d : Doc} {s s1 : St} {title : List Char}
    {page : Nat} {rest : List Entry} {e : PyError}
    (h : detailsStep d s title page = (s1, some e)) :
    step d s title page rest = (s1, some e) := by
  simp [step, h]

lemma step_of_detailsStep_ok {d : Doc} {s s1 : St} {title : List Char}
    {page : Nat} {rest : List Entry}
    (h : detailsStep d s title page = (s1, none)) :
    step d s title page rest = resumeStep s1 title page rest := by
  simp [step, h]

lemma runFrom_nil {d : Doc} {s : St} : runFrom d s [] = (s, none) := rfl

lemma runFrom_sub {d : Doc} {s : St} {rest : List Entry} :
    runFrom d s (Entry.sub :: rest) = runFrom d s rest := rfl

lemma runFrom_dest_none {d : Doc} {s s1 : St} {title : List Char}
    {page : Nat} {rest : List Entry}
    (h : step d s title page rest = (s1, none)) :
    runFrom d s (Entry.dest title page :: rest) = runFrom d s1 rest := by
  simp [runFrom, h]

lemma runFrom_dest_err {d : Doc} {s s1 : St} {title : List Char}
    {page : Nat} {rest : List Entry} {e : PyError}
    (h : step d s title page rest = (s1, some e)) :
    runFrom d s (Entry.dest title page :: rest) = (s1, some e) := by
  simp [runFrom, h]

/-- A successfully extracted row carries the id it was asked to carry. -/
lemma extractCandidate_id {cid : Nat} {text : List Char} {row : Row}
    (h : extractCandidate cid text = .ok row) : row.id = cid := by
  simp only [extractCandidate] at h
  split at h
  · simp at h
  · split at h
    · simp at h
    · split at h
      · simp at h
      · split at h
        · simp at h
        · rw [← (Except.ok.injEq _ _).mp h]

lemma exceptCases {ε α : Type} (x : Except ε α) :
    (∃ e, x = Except.error e) ∨ (∃ v, x = Except.ok v) := by
  cases x with
  | error e => exact Or.inl ⟨e, rfl⟩
  | ok v => exact Or.inr ⟨v, rfl⟩

/-- Exhaustive description of one loop iteration on a top-level
destination: either the details branch raises (aborting with the counter
already bumped), or it leaves a post-details state `s1`, after which the
resume branch either raises during the forward scan, emits a segment,
counts an errored resume, or does nothing. -/
lemma step_cases (d : Doc) (s : St) (title : List Char) (page : Nat)
    (rest : List Entry) :
    (∃ e, matchCandidateDetails title = true ∧
        extractCandidate (s.candidate_id + 1) (d.pageText page) = .error e ∧
        step d s title page rest =
          ({ s with candidate_id := s.candidate_id + 1 }, some e)) ∨
    (∃ s1, ((matchCandidateDetails title = false ∧ s1 = s) ∨
            (∃ row, matchCandidateDetails title = true ∧
                extractCandidate (s.candidate_id + 1) (d.pageText page) = .ok row ∧
                row.id = s.candidate_id + 1 ∧
                s1 = { s with
                        candidate_id := s.candidate_id + 1,
                        rows := s.rows ++ [row] })) ∧
        s1.resumes = s.resumes ∧
        ((∃ e, matchResumeOk title = true ∧ scanNext rest = .error e ∧
             step d s title page rest =
               ({ s1 with resume_count := s1.resume_count + 1 }, some e)) ∨
         (∃ t2 q, matchResumeOk title = true ∧ scanNext rest = .ok (t2, q) ∧
             step d s title page rest =
               ({ s1 with
                   resume_count := s1.resume_count + 1,
                   resumes := s1.resumes ++ [(s1.candidate_id, pyRange page q)] },
                none)) ∨
         (matchResumeOk title = false ∧ matchResumeError title = true ∧
             step d s title page rest =
               ({ s1 with resume_errors := s1.resume_errors + 1 }, none)) ∨
         (matchResumeOk title = false ∧ matchResumeError title = false ∧
             step d s title page rest = (s1, none)))) := by
  rcases Or.symm (Bool.eq_false_or_eq_true (matchCandidateDetails title)) with hcd | hcd
  · right
    have hd : detailsStep d s title page = (s, none) := detailsStep_neg hcd
    have hstep : step d s title page rest = resumeStep s title page rest :=
      step_of_detailsStep_ok hd
    refine ⟨s, Or.inl ⟨hcd, rfl⟩, rfl, ?_⟩
    rcases Or.symm (Bool.eq_false_or_eq_true (matchResumeOk title)) with hok | hok
    · rcases Or.symm (Bool.eq_false_or_eq_true (matchResumeError title)) with herr | herr
      · exact Or.inr (Or.inr (Or.inr ⟨hok, herr,
          by rw [hstep, resumeStep_none hok herr]⟩))
      · exact Or.inr (Or.inr (Or.inl ⟨hok, herr,
          by rw [hstep, resumeStep_err_label hok herr]⟩))
    · rcases exceptCases (scanNext rest) with ⟨e, hscan⟩ | ⟨pr, hscan⟩
      · exact Or.inl ⟨e, hok, hscan, by rw [hstep, resumeStep_scan_err hok hscan]⟩
      · obtain ⟨t2, q⟩ := pr
        exact Or.inr (Or.inl ⟨t2, q, hok, hscan,
          by rw [hstep, resumeStep_ok hok hscan]⟩)
  · rcases exceptCases (extractCandidate (s.candidate_id + 1) (d.pageText page))
      with ⟨e, hex⟩ | ⟨row, hex⟩
    · left
      have hd : detailsStep d s title page =
          ({ s with candidate_id := s.candidate_id + 1 }, some e) :=
        detailsStep_err hcd hex
      exact ⟨e, hcd, hex, step_of_detailsStep_err hd⟩
    · right
      have hd : detailsStep d s title page =
          ({ s with
              candidate_id := s.candidate_id + 1,
              rows := s.rows ++ [row] }, none) :=
        detailsStep_ok hcd hex
      have hstep : step d s title page rest =
          resumeStep
            { s with
                candidate_id := s.candidate_id + 1,
                rows := s.rows ++ [row] } title page rest :=
        step_of_detailsStep_ok hd
      refine ⟨_, Or.inr ⟨row, hcd, hex, extractCandidate_id hex, rfl⟩, rfl, ?_⟩
      rcases Or.symm (Bool.eq_false_or_eq_true (matchResumeOk title)) with hok | hok
      · rcases Or.symm (Bool.eq_false_or_eq_true (matchResumeError title)) with herr | herr
        · exact Or.inr (Or.inr (Or.inr ⟨hok, herr,
            by rw [hstep, resumeStep_none hok herr]⟩))
        · exact Or.inr (Or.inr (Or.inl ⟨hok, herr,
            by rw [hstep, resumeStep_err_label hok herr]⟩))
      · rcases exceptCases (scanNext rest) with ⟨e, hscan⟩ | ⟨pr, hscan⟩
        · exact Or.inl ⟨e, hok, hscan, by rw [hstep, resumeStep_scan_err hok hscan]⟩
        · obtain ⟨t2, q⟩ := pr
          exact Or.inr (Or.inl ⟨t2, q, hok, hscan,
            by rw [hstep, resumeStep_ok hok hscan]⟩)

/-! ### Claim C1: a resume marker as last top-level bookmark -/

lemma scanNext_all_sub (l : List Entry) (h : ∀ e ∈ l, e = Entry.sub) :
    scanNext l = .error .indexError := by
  induction l with
  | nil => rfl
  | cons e rest ih =>
    cases e with
    | sub =>
      simpa [scanNext] using ih (fun x hx => h x (List.mem_cons_of_mem _ hx))
    | dest t p =>
      exact absurd (h _ (List.mem_cons_self _ _)) (by simp)

/-- Claim C1, corrected.  When a success-resume marker is the last
top-level bookmark (followed by nothing, or only by nested sub-lists), the
forward scan `doc.outlines[k]` runs past the end of the outline list and
raises an uncaught IndexError: the run aborts with `resume_count` already
bumped and NO segment emitted — it does not extend the segment to the end
of the document. -/
theorem C1_resume_last_aborts (d : Doc) (s : St) (title : List Char)
    (page : Nat) (subs : List Entry)
    (hsub : ∀ e ∈ subs, e = Entry.sub)
    (hok : matchResumeOk title = true)
    (hcd : matchCandidateDetails title = false) :
    runFrom d s (Entry.dest title page :: subs) =
      ({ s with resume_count := s.resume_count + 1 }, some PyError.indexError) := by
  have hd : detailsStep d s title page = (s, none) := detailsStep_neg hcd
  have hr : resumeStep s title page subs =
      ({ s with resume_count := s.resume_count + 1 }, some PyError.indexError) :=
    resumeStep_scan_err hok (scanNext_all_sub subs hsub)
  have hstep : step d s title page subs =
      ({ s with resume_count := s.resume_count + 1 }, some PyError.indexError) := by
    rw [step_of_detailsStep_ok hd, hr]
  exact runFrom_dest_err hstep

/-- Claim C1, witness for the corrected theorem, at a one-entry outline. -/
theorem C1_witness :
    (∀ e ∈ ([] : List Entry), e = Entry.sub) ∧
    matchResumeOk "resume.pdf".toList = true ∧
    matchCandidateDetails "resume.pdf".toList = false ∧
    runFrom exDocC1 st0 [Entry.dest "resume.pdf".toList 0] =
      ({ st0 with resume_count := st0.resume_count + 1 }, some PyError.indexError) :=
  ⟨by decide, by decide, by decide,
    C1_resume_last_aborts exDocC1 st0 ("resume.pdf".toList) 0 []
      (by decide) (by decide) (by decide)⟩

/-- Claim C1, counterexample to the claim as stated: on a document whose
last (and only) top-level bookmark is `"resume.pdf"` at page 0 with 5
pages, the run fails with an IndexError and emits no segment, instead of
emitting pages [0, 5) without error. -/
theorem C1_counterexample :
    run exDocC1 = ({ st0 with resume_count := 1 }, some PyError.indexError) ∧
    exDocC1.numPages = 5 := ⟨by decide, by decide⟩

/-! ### Claim C4: candidate parse failures abort the whole run -/

lemma extractCandidate_err_noTokens {cid : Nat} {text : List Char}
    (h : nameTokens text = []) :
    extractCandidate cid text = .error .indexError := by
  simp [extractCandidate, h]

lemma extractCandidate_err_singleTitle {cid : Nat} {text : List Char}
    {t0 : List Char} (h : nameTokens text = [t0])
    (ht : TITLES.contains t0 = true) :
    extractCandidate cid text = .error .indexError := by
  have ht' : t0 ∈ TITLES := by simpa using ht
  simp [extractCandidate, h, ht']

lemma extractCandidate_err_noEmail {cid : Nat} {text : List Char}
    (h : List.findIdx? (fun l => l == emailLabelLine) (splitNL text) = none) :
    ∃ e, extractCandidate cid text = .error e := by
  rcases hts : nameTokens text with _ | ⟨t0, restToks⟩
  · exact ⟨_, extractCandidate_err_noTokens hts⟩
  · simp only [extractCandidate, hts, h]
    split
    · exact ⟨_, rfl⟩
    · exact ⟨_, rfl⟩

/-- Claim C4, corrected.  A candidate-details page whose text has an empty
name line, a lone title token, or no `"Email Address:"` line does make the
extraction fail — but with an uncaught IndexError/ValueError that aborts
the ENTIRE run at that point (with the id counter already bumped): the
remaining bookmarks are never processed and no per-candidate error is
recorded. -/
theorem C4_parse_failure_aborts (d : Doc) (s : St) (title : List Char)
    (page : Nat) (rest : List Entry)
    (hcd : matchCandidateDetails title = true)
    (hbad : nameTokens (d.pageText page) = [] ∨
            (∃ t0, nameTokens (d.pageText page) = [t0] ∧
                TITLES.contains t0 = true) ∨
            List.findIdx? (fun l => l == emailLabelLine)
                (splitNL (d.pageText page)) = none) :
    ∃ e, runFrom d s (Entry.dest title page :: rest) =
           ({ s with candidate_id := s.candidate_id + 1 }, some e) := by
  have hex : ∃ e, extractCandidate (s.candidate_id + 1) (d.pageText page) =
      .error e := by
    rcases hbad with h | ⟨t0, h, ht⟩ | h
    · exact ⟨_, extractCandidate_err_noTokens h⟩
    · exact ⟨_, extractCandidate_err_singleTitle h ht⟩
    · exact extractCandidate_err_noEmail h
  rcases hex with ⟨e, he⟩
  have hd : detailsStep d s title page =
      ({ s with candidate_id := s.candidate_id + 1 }, some e) :=
    detailsStep_err hcd he
  exact ⟨e, runFrom_dest_err (step_of_detailsStep_err hd)⟩

/-- Claim C4, witness for the corrected theorem: a blank first candidate
page aborts the run even though a second details marker follows. -/
theorem C4_witness :
    matchCandidateDetails "1. Candidate Details".toList = true ∧
    nameTokens (exDocC4.pageText 0) = [] ∧
    ∃ e, runFrom exDocC4 st0
        [Entry.dest "1. Candidate Details".toList 0,
         Entry.dest "2. Candidate Details".toList 1] =
        ({ st0 with candidate_id := st0.candidate_id + 1 }, some e) :=
  ⟨by decide, by decide,
    C4_parse_failure_aborts exDocC4 st0 ("1. Candidate Details".toList) 0
      [Entry.dest "2. Candidate Details".toList 1]
      (by decide) (Or.inl (by decide))⟩

/-- Claim C4, counterexample to the claim as stated: the run over
`exDocC4` dies on the first candidate's blank page — no row and no error
record is written, and the second details marker (the outline has two) is
never processed, so the run did NOT "record the error and continue". -/
theorem C4_counterexample :
    run exDocC4 = ({ st0 with candidate_id := 1 }, some PyError.indexError) ∧
    countDetails exDocC4.outlines = 2 := ⟨by decide, by decide⟩
/-! ### Claims C5 and C6: segment contents and candidate binding -/

/-- Claim C5, confirmed.  For a success-resume marker whose forward scan
(past any nested sub-lists) finds a next top-level destination at page
`q`, the step emits exactly the segment `range(page, q)` — the half-open
page interval `[page, q)` in original order — bound to the current
candidate id, and raises nothing. -/
theorem C5_segment_pages (d : Doc) (s : St) (title : List Char) (page : Nat)
    (rest : List Entry) (t2 : List Char) (q : Nat)
    (hok : matchResumeOk title = true)
    (hcd : matchCandidateDetails title = false)
    (hscan : scanNext rest = .ok (t2, q)) :
    step d s title page rest =
      ({ s with
          resume_count := s.resume_count + 1,
          resumes := s.resumes ++ [(s.candidate_id, pyRange page q)] }, none) ∧
    ∀ j, j ∈ pyRange page q ↔ (page ≤ j ∧ j < q) := by
  constructor
  · have hd : detailsStep d s title page = (s, none) := detailsStep_neg hcd
    rw [step_of_detailsStep_ok hd]
    exact resumeStep_ok hok hscan
  · intro j
    simp only [pyRange, List.mem_range'_1]
    omega

/-- Claim C5, witness at the spec's scenario: marker at page 10, next
top-level destination at page 13, segment = pages 10, 11, 12. -/
theorem C5_witness :
    matchResumeOk "resume.pdf".toList = true ∧
    matchCandidateDetails "resume.pdf".toList = false ∧
    scanNext [Entry.sub, Entry.dest "4. Candidate Details".toList 13] =
      .ok ("4. Candidate Details".toList, 13) ∧
    step exDocTriv st0 "resume.pdf".toList 10
        [Entry.sub, Entry.dest "4. Candidate Details".toList 13] =
      ({ st0 with
          resume_count := st0.resume_count + 1,
          resumes := st0.resumes ++ [(st0.candidate_id, pyRange 10 13)] }, none) :=
  ⟨by decide, by decide, by decide,
    (C5_segment_pages exDocTriv st0 ("resume.pdf".toList) 10
      [Entry.sub, Entry.dest "4. Candidate Details".toList 13]
      ("4. Candidate Details".toList) 13
      (by decide) (by decide) (by decide)).1⟩

/-- Claim C6, confirmed.  The emitted segment is bound to the value the
candidate counter has at the moment the resume marker is classified, and
classifying a resume marker leaves the counter unchanged — wherever the
owning candidate's details marker sits in bookmark order. -/
theorem C6_resume_binding (d : Doc) (s : St) (title : List Char) (page : Nat)
    (rest : List Entry) (t2 : List Char) (q : Nat)
    (hok : matchResumeOk title = true)
    (hcd : matchCandidateDetails title = false)
    (hscan : scanNext rest = .ok (t2, q)) :
    (step d s title page rest).1.resumes =
        s.resumes ++ [(s.candidate_id, pyRange page q)] ∧
    (step d s title page rest).1.candidate_id = s.candidate_id ∧
    (step d s title page rest).2 = none := by
  have hd : detailsStep d s title page = (s, none) := detailsStep_neg hcd
  rw [step_of_detailsStep_ok hd, resumeStep_ok hok hscan]
  exact ⟨rfl, rfl, rfl⟩

/-- Claim C6, witness: a resume marker observed while the counter is
already 2 (its details marker was seen earlier — or, symmetrically, is yet
to come) is bound to id 2, and the counter stays 2. -/
theorem C6_witness :
    matchResumeOk "cv.pdf".toList = true ∧
    matchCandidateDetails "cv.pdf".toList = false ∧
    scanNext [Entry.dest "3. Candidate Details".toList 9] =
      .ok ("3. Candidate Details".toList, 9) ∧
    ((step exDocTriv ⟨2, 1, 0, [], []⟩ "cv.pdf".toList 4
        [Entry.dest "3. Candidate Details".toList 9]).1.resumes =
      [] ++ [(2, pyRange 4 9)] ∧
     (step exDocTriv ⟨2, 1, 0, [], []⟩ "cv.pdf".toList 4
        [Entry.dest "3. Candidate Details".toList 9]).1.candidate_id = 2 ∧
     (step exDocTriv ⟨2, 1, 0, [], []⟩ "cv.pdf".toList 4
        [Entry.dest "3. Candidate Details".toList 9]).2 = none) :=
  ⟨by decide, by decide, by decide,
    C6_resume_binding exDocTriv ⟨2, 1, 0, [], []⟩ ("cv.pdf".toList) 4
      [Entry.dest "3. Candidate Details".toList 9]
      ("3. Candidate Details".toList) 9
      (by decide) (by decide) (by decide)⟩

/-! ### Claim C7: name-line parsing -/

lemma optionCases {α : Type} (x : Option α) : x = none ∨ ∃ v, x = some v := by
  cases x with
  | none => exact Or.inl rfl
  | some v => exact Or.inr ⟨v, rfl⟩

/-- Claim C7, confirmed.  On a successfully extracted candidate row: if
the first whitespace token of the name line is one of the fixed titles,
the row's title is that token and the first name is the second token;
otherwise the title is empty and the first name is the first token; in
both cases the last name is the final token (middle tokens discarded). -/
theorem C7_name_parsing (cid : Nat) (text : List Char) (t0 : List Char)
    (restToks : List (List Char)) (row : Row)
    (htoks : nameTokens text = t0 :: restToks)
    (hok : extractCandidate cid text = .ok row) :
    (TITLES.contains t0 = true →
        ∃ f l, restToks = f :: l ∧ row.title = t0 ∧ row.first_name = f) ∧
    (TITLES.contains t0 = false → row.title = [] ∧ row.first_name = t0) ∧
    row.last_name = (t0 :: restToks).getLast (List.cons_ne_nil t0 restToks) := by
  rcases Or.symm (Bool.eq_false_or_eq_true (TITLES.contains t0)) with ht | ht
  · have ht' : t0 ∉ TITLES := by simpa using ht
    simp only [extractCandidate, htoks, ht, Bool.false_eq_true, if_false] at hok
    rcases optionCases
        (List.findIdx? (fun l => l == emailLabelLine) (splitNL text))
      with hf | ⟨idx, hf⟩
    · simp [hf] at hok
    · simp only [hf] at hok
      rcases optionCases ((splitNL text)[idx + 1]?) with hg | ⟨em, hg⟩
      · simp [hg] at hok
      · simp only [hg] at hok
        injection hok with hrow
        subst hrow
        refine ⟨fun hc => absurd (ht ▸ hc) (by simp), fun _ => ⟨rfl, rfl⟩, rfl⟩
  · have ht' : t0 ∈ TITLES := by simpa using ht
    cases restToks with
    | nil =>
      have herr : extractCandidate cid text = .error .indexError :=
        extractCandidate_err_singleTitle htoks ht
      rw [herr] at hok
      simp at hok
    | cons f l =>
      simp only [extractCandidate, htoks, ht, if_true] at hok
      rcases optionCases
          (List.findIdx? (fun l => l == emailLabelLine) (splitNL text))
        with hf | ⟨idx, hf⟩
      · simp [hf] at hok
      · simp only [hf] at hok
        rcases optionCases ((splitNL text)[idx + 1]?) with hg | ⟨em, hg⟩
        · simp [hg] at hok
        · simp only [hg] at hok
          injection hok with hrow
          subst hrow
          exact ⟨fun _ => ⟨f, l, rfl, rfl, rfl⟩,
            fun hc => absurd (ht ▸ hc) (by simp), rfl⟩

/-- Claim C7, witness at the spec's scenario `"Mr John Q Public"`:
title "Mr", first name "John", last name "Public", middle token
discarded. -/
theorem C7_witness :
    nameTokens "Mr John Q Public\nEmail Address:\njohn@example.com".toList =
      ["Mr".toList, "John".toList, "Q".toList, "Public".toList] ∧
    extractCandidate 1 "Mr John Q Public\nEmail Address:\njohn@example.com".toList =
      .ok ⟨1, "Mr".toList, "John".toList, "Public".toList,
           "john@example.com".toList⟩ ∧
    (TITLES.contains "Mr".toList = true →
        ∃ f l, ["John".toList, "Q".toList, "Public".toList] = f :: l ∧
          (Row.mk 1 "Mr".toList "John".toList "Public".toList
            "john@example.com".toList).title = "Mr".toList ∧
          (Row.mk 1 "Mr".toList "John".toList "Public".toList
            "john@example.com".toList).first_name = f) :=
  ⟨by decide, by decide,
    (C7_name_parsing 1
      ("Mr John Q Public\nEmail Address:\njohn@example.com".toList)
      ("Mr".toList) ["John".toList, "Q".toList, "Public".toList]
      (Row.mk 1 "Mr".toList "John".toList "Public".toList
        "john@example.com".toList)
      (by decide) (by decide)).1⟩
/-! ### Claim C3: candidate ids are 1..N -/

lemma range1_succ (n : Nat) : List.range' 1 (n + 1) = List.range' 1 n ++ [n + 1] := by
  have h : 1 + 1 * n = n + 1 := by omega
  rw [List.range'_concat, h]

lemma runFrom_rows_inv (d : Doc) :
    ∀ (entries : List Entry) (s : St),
      s.rows.map Row.id = List.range' 1 s.candidate_id →
      (runFrom d s entries).2 = none →
      (runFrom d s entries).1.rows.map Row.id =
          List.range' 1 (runFrom d s entries).1.candidate_id ∧
      (runFrom d s entries).1.candidate_id =
          s.candidate_id + countDetails entries := by
  intro entries
  induction entries with
  | nil =>
    intro s hinv _
    exact ⟨hinv, by simp [runFrom, countDetails]⟩
  | cons e rest ih =>
    intro s hinv hok
    cases e with
    | sub =>
      simp only [runFrom_sub] at hok ⊢
      simpa [countDetails] using ih s hinv hok
    | dest title page =>
      rcases step_cases d s title page rest with
        ⟨e, hcd, hex, hstep⟩ | ⟨s1, hs1, hres, hrest⟩
      · rw [runFrom_dest_err hstep] at hok
        simp at hok
      · have hrows1 : s1.rows.map Row.id = List.range' 1 s1.candidate_id ∧
            s1.candidate_id = s.candidate_id +
              (if matchCandidateDetails title then 1 else 0) := by
          rcases hs1 with ⟨hcd, rfl⟩ | ⟨row, hcd, hex, hid, rfl⟩
          · exact ⟨hinv, by simp [hcd]⟩
          · constructor
            · show (s.rows ++ [row]).map Row.id = List.range' 1 (s.candidate_id + 1)
              rw [List.map_append, hinv, range1_succ]
              simp [hid]
            · simp [hcd]
        rcases hrest with ⟨e, hok2, hscan, hstep⟩ | ⟨t2, q, hok2, hscan, hstep⟩ |
          ⟨hok2, herr2, hstep⟩ | ⟨hok2, herr2, hstep⟩
        · rw [runFrom_dest_err hstep] at hok
          simp at hok
        · rw [runFrom_dest_none hstep] at hok ⊢
          have hrec := ih _ (by exact hrows1.1) hok
          refine ⟨hrec.1, ?_⟩
          rw [hrec.2]
          show s1.candidate_id + countDetails rest =
            s.candidate_id + countDetails (Entry.dest title page :: rest)
          have h1 := hrows1.2
          simp only [countDetails]
          omega
        · rw [runFrom_dest_none hstep] at hok ⊢
          have hrec := ih _ (by exact hrows1.1) hok
          refine ⟨hrec.1, ?_⟩
          rw [hrec.2]
          show s1.candidate_id + countDetails rest =
            s.candidate_id + countDetails (Entry.dest title page :: rest)
          have h1 := hrows1.2
          simp only [countDetails]
          omega
        · rw [runFrom_dest_none hstep] at hok ⊢
          have hrec := ih _ (by exact hrows1.1) hok
          refine ⟨hrec.1, ?_⟩
          rw [hrec.2]
          show s1.candidate_id + countDetails rest =
            s.candidate_id + countDetails (Entry.dest title page :: rest)
          have h1 := hrows1.2
          simp only [countDetails]
          omega

/-- Claim C3, corrected.  "For every run" is too strong: a run aborted by
an uncaught parse exception has encountered more details markers than it
has written rows (see the counterexample).  For every run that completes
without an uncaught exception, the claim holds: the ids of the CSV rows
are exactly 1..N in order, where N is the number of candidate-details
markers, and the counter — started at 0 and bumped by one before each
row — ends at N. -/
theorem C3_candidate_ids (d : Doc) (hok : (run d).2 = none) :
    (run d).1.rows.map Row.id = List.range' 1 (countDetails d.outlines) ∧
    (run d).1.candidate_id = countDetails d.outlines := by
  unfold run
  have h := runFrom_rows_inv d d.outlines st0 (by simp [st0]) hok
  rcases h with ⟨h1, h2⟩
  constructor
  · rw [h1, h2]
    simp [st0]
  · rw [h2]
    simp [st0]

/-- Claim C3, witness: a complete run over two candidate pages and a
resume produces rows with ids `[1, 2]`. -/
theorem C3_witness :
    (run exDocC3).2 = none ∧
    ((run exDocC3).1.rows.map Row.id =
        List.range' 1 (countDetails exDocC3.outlines) ∧
     (run exDocC3).1.candidate_id = countDetails exDocC3.outlines) :=
  ⟨by decide, C3_candidate_ids exDocC3 (by decide)⟩

/-- Claim C3, counterexample to the claim as stated: on `exDocC3bad` the
second details marker IS encountered — the counter, bumped before
extraction, ends at 2 — but its blank page kills the run, so the tabular
output carries ids `[1]` and not `1..2`. -/
theorem C3_counterexample :
    countDetails exDocC3bad.outlines = 2 ∧
    (run exDocC3bad).1.candidate_id = 2 ∧
    (run exDocC3bad).2 = some PyError.indexError ∧
    (run exDocC3bad).1.rows.map Row.id = [1] ∧
    (run exDocC3bad).1.rows.map Row.id ≠
      List.range' 1 (countDetails exDocC3bad.outlines) :=
  ⟨by decide, by decide, by decide, by decide, by decide⟩

/-! ### Claim C10: a resume with no preceding candidate is filed as 0 -/

lemma runFrom_resumes_mono (d : Doc) :
    ∀ (entries : List Entry) (s : St),
      ∃ l, (runFrom d s entries).1.resumes = s.resumes ++ l := by
  intro entries
  induction entries with
  | nil => intro s; exact ⟨[], by simp [runFrom]⟩
  | cons e rest ih =>
    intro s
    cases e with
    | sub => simpa only [runFrom_sub] using ih s
    | dest title page =>
      rcases step_cases d s title page rest with
        ⟨e, hcd, hex, hstep⟩ | ⟨s1, hs1, hres, hrest⟩
      · rw [runFrom_dest_err hstep]
        exact ⟨[], by simp⟩
      · rcases hrest with ⟨e, hok2, hscan, hstep⟩ | ⟨t2, q, hok2, hscan, hstep⟩ |
          ⟨hok2, herr2, hstep⟩ | ⟨hok2, herr2, hstep⟩
        · rw [runFrom_dest_err hstep]
          exact ⟨[], by simpa using hres⟩
        · rw [runFrom_dest_none hstep]
          obtain ⟨l, hl⟩ := ih
            { s1 with
                resume_count := s1.resume_count + 1,
                resumes := s1.resumes ++ [(s1.candidate_id, pyRange page q)] }
          refine ⟨(s1.candidate_id, pyRange page q) :: l, ?_⟩
          rw [hl]
          show (s1.resumes ++ [(s1.candidate_id, pyRange page q)]) ++ l =
            s.resumes ++ ((s1.candidate_id, pyRange page q) :: l)
          rw [hres]
          simp
        · rw [runFrom_dest_none hstep]
          obtain ⟨l, hl⟩ := ih { s1 with resume_errors := s1.resume_errors + 1 }
          refine ⟨l, ?_⟩
          rw [hl]
          show s1.resumes ++ l = s.resumes ++ l
          rw [hres]
        · rw [runFrom_dest_none hstep]
          obtain ⟨l, hl⟩ := ih s1
          exact ⟨l, by rw [hl, hres]⟩

lemma runFrom_rows_ge1 (d : Doc) :
    ∀ (entries : List Entry) (s : St),
      (∀ r ∈ s.rows, 1 ≤ r.id) →
      ∀ r ∈ (runFrom d s entries).1.rows, 1 ≤ r.id := by
  intro entries
  induction entries with
  | nil => intro s h; simpa [runFrom] using h
  | cons e rest ih =>
    intro s h
    cases e with
    | sub => simpa only [runFrom_sub] using ih s h
    | dest title page =>
      rcases step_cases d s title page rest with
        ⟨e, hcd, hex, hstep⟩ | ⟨s1, hs1, hres, hrest⟩
      · rw [runFrom_dest_err hstep]
        exact fun r hr => h r hr
      · have h1 : ∀ r ∈ s1.rows, 1 ≤ r.id := by
          rcases hs1 with ⟨hcd, rfl⟩ | ⟨row, hcd, hex, hid, rfl⟩
          · exact h
          · intro r hr
            rcases List.mem_append.mp hr with hr' | hr'
            · exact h r hr'
            · have hrr : r = row := by simpa using hr'
              rw [hrr, hid]
              omega
        rcases hrest with ⟨e, hok2, hscan, hstep⟩ | ⟨t2, q, hok2, hscan, hstep⟩ |
          ⟨hok2, herr2, hstep⟩ | ⟨hok2, herr2, hstep⟩
        · rw [runFrom_dest_err hstep]
          exact fun r hr => h1 r hr
        · rw [runFrom_dest_none hstep]
          exact ih _ (by exact h1)
        · rw [runFrom_dest_none hstep]
          exact ih _ (by exact h1)
        · rw [runFrom_dest_none hstep]
          exact ih _ (by exact h1)

/-- Claim C10, confirmed.  When the first outline entry is a
success-resume marker (so no candidate-details marker has been seen yet),
the segment is still emitted and is bound to candidate id 0 — the file
`0.pdf` — an id no CSV row ever carries, since row ids are always at
least 1.  No guard rejects a resume with no owning candidate. -/
theorem C10_unowned_resume (d : Doc) (title : List Char) (page : Nat)
    (rest : List Entry) (t2 : List Char) (q : Nat)
    (houts : d.outlines = Entry.dest title page :: rest)
    (hok : matchResumeOk title = true)
    (hcd : matchCandidateDetails title = false)
    (hscan : scanNext rest = .ok (t2, q)) :
    (∃ l, (run d).1.resumes = (0, pyRange page q) :: l) ∧
    (∀ r ∈ (run d).1.rows, 1 ≤ r.id) := by
  unfold run
  rw [houts]
  have hd : detailsStep d st0 title page = (st0, none) := detailsStep_neg hcd
  have hstep : step d st0 title page rest =
      ({ st0 with
          resume_count := st0.resume_count + 1,
          resumes := st0.resumes ++ [(st0.candidate_id, pyRange page q)] },
       none) := by
    rw [step_of_detailsStep_ok hd]
    exact resumeStep_ok hok hscan
  rw [runFrom_dest_none hstep]
  constructor
  · obtain ⟨l, hl⟩ := runFrom_resumes_mono d rest
      { st0 with
          resume_count := st0.resume_count + 1,
          resumes := st0.resumes ++ [(st0.candidate_id, pyRange page q)] }
    exact ⟨l, by rw [hl]; rfl⟩
  · apply runFrom_rows_ge1 d rest
    intro r hr
    exact absurd hr (by simp [st0])

/-- Claim C10, witness: a document starting with `"resume.pdf"` at page 0,
followed by the first candidate-details marker at page 2, emits pages
[0, 2) as `0.pdf`. -/
theorem C10_witness :
    exDocC10.outlines = Entry.dest "resume.pdf".toList 0 ::
      [Entry.dest "1. Candidate Details".toList 2] ∧
    matchResumeOk "resume.pdf".toList = true ∧
    matchCandidateDetails "resume.pdf".toList = false ∧
    scanNext [Entry.dest "1. Candidate Details".toList 2] =
      .ok ("1. Candidate Details".toList, 2) ∧
    ∃ l, (run exDocC10).1.resumes = (0, pyRange 0 2) :: l :=
  ⟨by decide, by decide, by decide, by decide,
    (C10_unowned_resume exDocC10 ("resume.pdf".toList) 0
      [Entry.dest "1. Candidate Details".toList 2]
      ("1. Candidate Details".toList) 2
      (by decide) (by decide) (by decide) (by decide)).1⟩
/-! ### Claim C9: segment disjointness -/

lemma scanNext_ok_head :
    ∀ (l : List Entry) (t : List Char) (q : Nat),
      scanNext l = .ok (t, q) → ∃ tl, destPages l = q :: tl := by
  intro l
  induction l with
  | nil => intro t q h; simp [scanNext] at h
  | cons e rest ih =>
    cases e with
    | sub =>
      intro t q h
      simpa [destPages] using ih t q (by simpa [scanNext] using h)
    | dest u p =>
      intro t q h
      simp [scanNext] at h
      exact ⟨destPages rest, by simp [destPages, h.2]⟩

/-- Run invariant for segment disjointness: provided the top-level
destination pages of the remaining outline are nondecreasing, all below
`B`, and all pages already emitted lie strictly below every remaining
destination page (and below `B`) with no duplicates, then the final
emitted pages are duplicate-free and below `B`. -/
lemma runFrom_seg_inv (d : Doc) (B : Nat) :
    ∀ (entries : List Entry) (s : St),
      List.Pairwise (· ≤ ·) (destPages entries) →
      (∀ q ∈ destPages entries, q < B) →
      (∀ x ∈ (s.resumes.map Prod.snd).flatten,
          (∀ q ∈ destPages entries, x < q) ∧ x < B) →
      ((s.resumes.map Prod.snd).flatten).Nodup →
      (((runFrom d s entries).1.resumes.map Prod.snd).flatten).Nodup ∧
        ∀ x ∈ ((runFrom d s entries).1.resumes.map Prod.snd).flatten, x < B := by
  intro entries
  induction entries with
  | nil =>
    intro s _ _ hbound hnd
    exact ⟨hnd, fun x hx => (hbound x hx).2⟩
  | cons e rest ih =>
    intro s hmono hqB hbound hnd
    cases e with
    | sub =>
      simp only [runFrom_sub]
      exact ih s (by simpa [destPages] using hmono)
        (by simpa [destPages] using hqB)
        (fun x hx => by simpa [destPages] using hbound x hx) hnd
    | dest title page =>
      have hmono0 : List.Pairwise (· ≤ ·) (page :: destPages rest) := by
        simpa [destPages] using hmono
      have hmono' : List.Pairwise (· ≤ ·) (destPages rest) :=
        (List.pairwise_cons.mp hmono0).2
      have hqB' : ∀ q ∈ destPages rest, q < B := fun q hq =>
        hqB q (by simp only [destPages, List.mem_cons]; exact Or.inr hq)
      have hmemD : ∀ q ∈ destPages rest, q ∈ destPages (Entry.dest title page :: rest) :=
        fun q hq => by simp only [destPages, List.mem_cons]; exact Or.inr hq
      have hpage_mem : page ∈ destPages (Entry.dest title page :: rest) := by
        simp [destPages]
      rcases step_cases d s title page rest with
        ⟨e, hcd, hex, hstep⟩ | ⟨s1, hs1, hres, hrest⟩
      · rw [runFrom_dest_err hstep]
        exact ⟨hnd, fun x hx => (hbound x hx).2⟩
      · rcases hrest with ⟨e, hok2, hscan, hstep⟩ | ⟨t2, q, hok2, hscan, hstep⟩ |
          ⟨hok2, herr2, hstep⟩ | ⟨hok2, herr2, hstep⟩
        · rw [runFrom_dest_err hstep]
          show ((s1.resumes.map Prod.snd).flatten).Nodup ∧
            ∀ x ∈ (s1.resumes.map Prod.snd).flatten, x < B
          rw [hres]
          exact ⟨hnd, fun x hx => (hbound x hx).2⟩
        · rw [runFrom_dest_none hstep]
          obtain ⟨tl, htl⟩ := scanNext_ok_head rest t2 q hscan
          have hq_mem : q ∈ destPages rest := by rw [htl]; simp
          have hqB2 : q < B := hqB' q hq_mem
          have hq_le : ∀ q' ∈ destPages rest, q ≤ q' := by
            intro q' hq'
            rw [htl] at hq' hmono'
            rcases List.mem_cons.mp hq' with rfl | hq''
            · exact le_refl q'
            · exact (List.pairwise_cons.mp hmono').1 q' hq''
          have hseg : ∀ x ∈ pyRange page q, page ≤ x ∧ x < q := by
            intro x hx
            simp only [pyRange, List.mem_range'_1] at hx
            omega
          refine ih _ hmono' hqB' ?_ ?_
          · intro x hx
            have hx2 : x ∈ ((s.resumes ++
                [(s1.candidate_id, pyRange page q)]).map Prod.snd).flatten := by
              have hx1 : x ∈ ((s1.resumes ++
                  [(s1.candidate_id, pyRange page q)]).map Prod.snd).flatten := hx
              rwa [hres] at hx1
            have hx' : x ∈ (s.resumes.map Prod.snd).flatten ∨
                x ∈ pyRange page q := by
              simpa using hx2
            rcases hx' with hx' | hx'
            · exact ⟨fun q' hq' => (hbound x hx').1 q' (hmemD q' hq'),
                (hbound x hx').2⟩
            · have hxc := hseg x hx'
              exact ⟨fun q' hq' => lt_of_lt_of_le hxc.2 (hq_le q' hq'),
                lt_trans hxc.2 hqB2⟩
          · show (((s1.resumes ++
                [(s1.candidate_id, pyRange page q)]).map Prod.snd).flatten).Nodup
            rw [hres]
            simp only [List.map_append, List.flatten_append, List.map_cons,
              List.map_nil, List.flatten_cons, List.flatten_nil, List.append_nil]
            rw [List.nodup_append]
            refine ⟨hnd, by exact List.nodup_range' page (q - page), ?_⟩
            intro a ha hb
            have hxb := (hbound a ha).1 page hpage_mem
            have hyb := (hseg a hb).1
            omega
        · rw [runFrom_dest_none hstep]
          refine ih _ hmono' hqB' ?_ ?_
          · intro x hx
            have hx1 : x ∈ (s.resumes.map Prod.snd).flatten := by
              have h0 : x ∈ (s1.resumes.map Prod.snd).flatten := hx
              rwa [hres] at h0
            exact ⟨fun q' hq' => (hbound x hx1).1 q' (hmemD q' hq'),
              (hbound x hx1).2⟩
          · show ((s1.resumes.map Prod.snd).flatten).Nodup
            rw [hres]
            exact hnd
        · rw [runFrom_dest_none hstep]
          refine ih _ hmono' hqB' ?_ ?_
          · intro x hx
            have hx1 : x ∈ (s.resumes.map Prod.snd).flatten := by
              have h0 : x ∈ (s1.resumes.map Prod.snd).flatten := hx
              rwa [hres] at h0
            exact ⟨fun q' hq' => (hbound x hx1).1 q' (hmemD q' hq'),
              (hbound x hx1).2⟩
          · show ((s1.resumes.map Prod.snd).flatten).Nodup
            rw [hres]
            exact hnd

/-- Claim C9, corrected.  Segment disjointness does NOT hold for every
run: the script trusts the outline order, so when destination pages are
out of order, segments overlap (see the counterexample).  Under the
additional hypothesis that the top-level destination pages are
nondecreasing in outline order (and within the page count), the claim
holds: the pages of all emitted segments, concatenated in emission order,
contain no duplicate — no source page appears in two different segments —
and all of them are pages of the source document. -/
theorem C9_segments_disjoint (d : Doc)
    (hmono : List.Pairwise (· ≤ ·) (destPages d.outlines))
    (hlt : ∀ q ∈ destPages d.outlines, q < d.numPages) :
    (((run d).1.resumes.map Prod.snd).flatten).Nodup ∧
    ∀ x ∈ ((run d).1.resumes.map Prod.snd).flatten, x < d.numPages := by
  unfold run
  exact runFrom_seg_inv d d.numPages d.outlines st0 hmono hlt
    (fun x hx => absurd hx (by simp [st0])) (by simp [st0])

/-- Claim C9, witness for the amended theorem on a monotone document. -/
theorem C9_witness :
    List.Pairwise (· ≤ ·) (destPages exDocC3.outlines) ∧
    (∀ q ∈ destPages exDocC3.outlines, q < exDocC3.numPages) ∧
    (((run exDocC3).1.resumes.map Prod.snd).flatten).Nodup :=
  ⟨by decide, by decide,
    (C9_segments_disjoint exDocC3 (by decide) (by decide)).1⟩

/-- Claim C9, counterexample to the claim as stated: with out-of-order
destination pages (which the script never checks), page 5 belongs to both
emitted segments. -/
theorem C9_counterexample :
    (run exDocC9).1.resumes = [(0, pyRange 0 10), (0, pyRange 5 12)] ∧
    (5 ∈ pyRange 0 10) ∧ (5 ∈ pyRange 5 12) :=
  ⟨by decide, by decide, by decide⟩
